import Mathlib

/-!
Shallow embedding of the GE-Pulse portfolio/tax core.

Sources embedded here:
* `src/unnamed/part_000` — image-URL resolver (`getHighResImageUrl`,
  `createIconDataUrl`), shorthand price parser (`parseShorthandPrice`) and
  the Grand Exchange tax calculator (`calculateGeTax`);
* `src/components/PortfolioPage.tsx` — the open/closed partition of
  investment records, the summary statistics fold (`summaryStats`) and the
  portfolio-history builder (`calculateHistory`).

Modelling conventions: JavaScript numbers carrying integer currency amounts
become `ℤ`; intermediate fractional values (float literals such as `0.02`,
`parseFloat` results) become `ℚ`; `null`/missing becomes `Option`; the
`NaN` result of the price parser becomes `none`.  Calendar timestamps
(ISO date strings, `Date.getTime()`) become `ℤ` epoch milliseconds, with
`setHours(0,0,0,0)` modelled as flooring to a multiple of a day.
-/

namespace GEPulse

/-! ### Image / icon URL resolver (src/unnamed/part_000 lines 9–44) -/

/-- One character replaced by another everywhere: `itemName.replace(/ /g, '_')`. -/
def replaceAllChar (c r : Char) (l : List Char) : List Char :=
  l.map (fun x => if x = c then r else x)

/-- Uppercase the first character only: `fileName.charAt(0).toUpperCase() + fileName.slice(1)`. -/
def upperFirst : List Char → List Char
  | [] => []
  | c :: cs => c.toUpper :: cs

/-- One character expanded to a replacement string everywhere:
`fileName.replace(/\+/g, '%2B')` and `.replace(/'/g, '%27')`. -/
def expandChar (c : Char) (r : List Char) : List Char → List Char
  | [] => []
  | x :: xs => (if x = c then r else [x]) ++ expandChar c r xs

/-- `getHighResImageUrl` of src/unnamed/part_000 lines 9–29: spaces to
underscores, first character uppercased, then `+` and the apostrophe
percent-encoded, embedded into the fixed wiki URL template. -/
def getHighResImageUrl (itemName : String) : String :=
  if itemName = "" then ""
  else
    String.mk ("https://oldschool.runescape.wiki/images/".data
      ++ expandChar '\'' ("%27".data)
           (expandChar '+' ("%2B".data) (upperFirst (replaceAllChar ' ' '_' itemName.data)))
      ++ ".png".data)

/-- The transformation of a file name as the spec phrases it: one simultaneous
pass replacing every `+` by `%2B` and every apostrophe by `%27`. -/
def encodeSpecialChars : List Char → List Char
  | [] => []
  | c :: cs =>
      (if c = '+' then "%2B".data else if c = '\'' then "%27".data else [c])
        ++ encodeSpecialChars cs

/-- The spec-side description of the file-name transform: replace every space
with an underscore, uppercase only the first character, then percent-encode
`+` and apostrophe. -/
def specFileName (s : String) : List Char :=
  encodeSpecialChars (upperFirst (replaceAllChar ' ' '_' s.data))

/-- `s.startsWith(p)` on character lists. -/
def listStartsWith : List Char → List Char → Bool
  | _, [] => true
  | [], _ :: _ => false
  | x :: xs, y :: ys => x == y && listStartsWith xs ys

/-- `createIconDataUrl` of src/unnamed/part_000 lines 36–44. -/
def createIconDataUrl (iconData : String) : String :=
  if iconData = "" then ""
  else if listStartsWith iconData.data ("data:image/".data) then iconData
  else String.mk ("data:image/png;base64,".data ++ iconData.data)

/-! ### Shorthand price parser (src/unnamed/part_000 lines 53–69) -/

/-- The whitespace class trimmed by `String.prototype.trim` and skipped by
`parseFloat` (the ASCII part, which is all the repository ever feeds it). -/
def jsWhitespace (c : Char) : Bool :=
  c = ' ' || c = '\t' || c = '\n' || c = '\r' || c = '\x0b' || c = '\x0c'

/-- `value.trim()` on character lists. -/
def trimChars (l : List Char) : List Char :=
  (((l.dropWhile jsWhitespace).reverse.dropWhile jsWhitespace)).reverse

/-- The natural number denoted by a list of decimal digit characters. -/
def digitsVal (ds : List Char) : ℕ :=
  ds.foldl (fun a c => 10 * a + (c.toNat - 48)) 0

/-- The exponent after `e`: an optional sign and digits; when no digit
follows, the exponent part is not part of the literal and contributes 0. -/
def parseExponentZ (l : List Char) : ℤ :=
  match l with
  | '-' :: rest =>
      if rest.takeWhile Char.isDigit = [] then 0
      else -(digitsVal (rest.takeWhile Char.isDigit) : ℤ)
  | '+' :: rest =>
      if rest.takeWhile Char.isDigit = [] then 0
      else (digitsVal (rest.takeWhile Char.isDigit) : ℤ)
  | _ =>
      if l.takeWhile Char.isDigit = [] then 0
      else (digitsVal (l.takeWhile Char.isDigit) : ℤ)

/-- JavaScript `parseFloat`, restricted to what it does on the repository's
inputs: skip leading whitespace, an optional sign, integer digits, an
optional fraction after a dot, an optional exponent; the longest valid
prefix is the value and `none` is `NaN` (no digit in the mantissa).  The
exact value is kept as a numerator/denominator pair `(n, d)` denoting
`n / d`, with `d` a positive power of ten, so that every computation stays
in integer arithmetic. -/
def parseFloatRaw (input : List Char) : Option (ℤ × ℕ × ℤ) :=
  let l0 := input.dropWhile jsWhitespace
  let sign : ℤ := if l0.head? = some '-' then -1 else 1
  let l1 := if l0.head? = some '-' ∨ l0.head? = some '+' then l0.tail else l0
  let intDigits := l1.takeWhile Char.isDigit
  let l2 := l1.drop intDigits.length
  let fracDigits := if l2.head? = some '.' then l2.tail.takeWhile Char.isDigit else []
  let l3 := if l2.head? = some '.' then l2.tail.drop fracDigits.length else l2
  if intDigits = [] ∧ fracDigits = [] then none
  else
    let mantissaNum : ℤ :=
      sign * ((digitsVal intDigits : ℤ) * 10 ^ fracDigits.length + (digitsVal fracDigits : ℤ))
    let e : ℤ := if l3.head? = some 'e' ∨ l3.head? = some 'E' then parseExponentZ l3.tail else 0
    some (mantissaNum, fracDigits.length, e)

/-- The exact parsed value scaled into a single numerator/denominator pair:
`(mantissaNum / 10 ^ fracLen) * 10 ^ e` with the power of ten folded into
whichever side keeps both components integral. -/
def parseFloatParts (input : List Char) : Option (ℤ × ℕ) :=
  (parseFloatRaw input).map (fun r =>
    if 0 ≤ r.2.2 then (r.1 * 10 ^ r.2.2.toNat, 10 ^ r.2.1)
    else (r.1, 10 ^ r.2.1 * 10 ^ (-r.2.2).toNat))

/-- The rational number `parseFloat` denotes (`none` is `NaN`). -/
def parseFloatQ (input : List Char) : Option ℚ :=
  (parseFloatParts input).map (fun p => (p.1 : ℚ) / (p.2 : ℚ))

/-- `value.toLowerCase().trim()` — the `sanitizedValue` of the source. -/
def sanitizedOf (value : String) : List Char :=
  trimChars (value.data.map Char.toLower)

/-- The multiplier: `m` → 1 000 000, else `k` → 1 000, else 1, checked on the
sanitized string before commas are removed. -/
def multiplierZ (value : String) : ℤ :=
  if (sanitizedOf value).getLast? = some 'm' then 1000000
  else if (sanitizedOf value).getLast? = some 'k' then 1000
  else 1

/-- The multiplier as the rational number the source's float carries. -/
def multiplierOf (value : String) : ℚ :=
  ((multiplierZ value : ℤ) : ℚ)

/-- Remove a single trailing `k` or `m`: the regex `/[km]$/`. -/
def stripSuffixKM (l : List Char) : List Char :=
  match l.getLast? with
  | some c => if c = 'k' ∨ c = 'm' then l.dropLast else l
  | none => l

/-- The `numPart` of the source: commas removed, then the suffix stripped. -/
def numPartOf (value : String) : List Char :=
  stripSuffixKM ((sanitizedOf value).filter (fun c => c ≠ ','))

/-- `parseShorthandPrice` of src/unnamed/part_000 lines 53–69; `none` models
the `NaN` result.  `Math.floor(number * multiplier)` on the exact value
`n / d` is the floor of `(n * multiplier) / d`, which is integer division
(`Int.ediv`, floor division) by the positive denominator `d`. -/
def parseShorthandPrice (value : String) : Option ℤ :=
  if value = "" then none
  else if trimChars (numPartOf value) = [] then none
  else
    match parseFloatParts (numPartOf value) with
    | none => none
    | some (n, d) => some (n * multiplierZ value / (d : ℤ))

/-! ### Grand Exchange tax calculator (src/unnamed/part_000 lines 71–147) -/

/-- The `TAX_EXEMPT_ITEMS` set of src/unnamed/part_000 lines 71–117. -/
def TAX_EXEMPT_ITEMS : List String :=
  ["Old school bonds", "Energy potion", "Bronze arrow", "Bronze dart", "Iron arrow",
   "Iron dart", "Mind rune", "Steel arrow", "Steel dart", "Bass", "Bread", "Cake",
   "Cooked chicken", "Cooked meat", "Herring", "Lobster", "Mackerel", "Meat pie",
   "Pike", "Salmon", "Shrimps", "Tuna", "Ardougne teleport", "Camelot teleport",
   "Civitas illa fortis teleport", "Falador teleport", "Games necklace (8)",
   "Kourend castle teleport", "Lumbridge teleport", "Ring of dueling (8)",
   "Teleport to house", "Varrock teleport", "Chisel", "Gardening trowel",
   "Glassblowing pipe", "Hammer", "Needle", "Pestle and mortar", "Rake", "Saw",
   "Secateurs", "Seed dibber", "Shears", "Spade", "Watering can (0)"]

def MIN_PRICE_FOR_TAX : ℤ := 50

def MAX_TAX_AMOUNT : ℤ := 5000000

/-- `calculateGeTax` of src/unnamed/part_000 lines 130–147.
`Math.floor(totalSaleValue * TAX_RATE)` with `TAX_RATE = 0.02` is, in exact
arithmetic, the floor of `total * 2 / 100`: integer floor division here. -/
def calculateGeTax (itemName : String) (sellPrice quantity : ℤ) : ℤ :=
  if itemName ∈ TAX_EXEMPT_ITEMS then 0
  else if sellPrice ≤ MIN_PRICE_FOR_TAX then 0
  else min (sellPrice * quantity * 2 / 100) MAX_TAX_AMOUNT

/-! ### Data model (src/types.ts) -/

/-- `LatestPrice` of src/types.ts: nullable most recent trade prices. -/
structure LatestPrice where
  high : Option ℤ
  highTime : Option ℤ
  low : Option ℤ
  lowTime : Option ℤ

/-- `Investment` of src/types.ts.  The ISO date strings become epoch
milliseconds (`ℤ`); `null` becomes `none`. -/
structure Investment where
  id : String
  user_id : String
  item_id : ℕ
  quantity : ℤ
  purchase_price : ℤ
  purchase_date : ℤ
  sell_price : Option ℤ
  sell_date : Option ℤ
  tax_paid : Option ℤ

/-- `TimeseriesData` of src/types.ts: one bucket of the historical series,
with nullable average prices. -/
structure TimeseriesData where
  timestamp : ℤ
  avgHighPrice : Option ℤ
  avgLowPrice : Option ℤ
  highPriceVolume : ℤ
  lowPriceVolume : ℤ

/-! ### Open/closed partition (src/components/PortfolioPage.tsx lines 152–161) -/

/-- One step of the `reduce` that partitions investments: an open record
(`sell_price === null`) is pushed onto the first bucket, any other onto the
second. -/
def partitionStep (acc : List Investment × List Investment) (inv : Investment) :
    List Investment × List Investment :=
  if inv.sell_price = none then (acc.1 ++ [inv], acc.2) else (acc.1, acc.2 ++ [inv])

/-- The `openPositions`/`closedPositions` reduce of PortfolioPage.tsx
lines 152–161. -/
def partitionPositions (investments : List Investment) :
    List Investment × List Investment :=
  investments.foldl partitionStep ([], [])

def openPositions (investments : List Investment) : List Investment :=
  (partitionPositions investments).1

def closedPositions (investments : List Investment) : List Investment :=
  (partitionPositions investments).2

/-! ### Summary statistics (src/components/PortfolioPage.tsx lines 163–187) -/

structure SummaryStats where
  totalValue : ℤ
  unrealisedProfit : ℤ
  realisedProfit : ℤ
  totalTaxPaid : ℤ

/-- `latestPrices[inv.item_id]?.high ?? 0` — a missing record or a null
`high` both read as 0. -/
def currentHighPrice (latestPrices : ℕ → Option LatestPrice) (itemId : ℕ) : ℤ :=
  ((latestPrices itemId).bind LatestPrice.high).getD 0

/-- The per-open-position current value of PortfolioPage.tsx line 172. -/
def positionCurrentValue (latestPrices : ℕ → Option LatestPrice) (inv : Investment) : ℤ :=
  currentHighPrice latestPrices inv.item_id * inv.quantity

/-- The per-open-position unrealised profit/loss of PortfolioPage.tsx
line 174: current value minus purchase value. -/
def positionUnrealisedPL (latestPrices : ℕ → Option LatestPrice) (inv : Investment) : ℤ :=
  positionCurrentValue latestPrices inv - inv.purchase_price * inv.quantity

/-- The body of the `openPositions.forEach` of lines 169–175. -/
def openStep (latestPrices : ℕ → Option LatestPrice) (s : SummaryStats)
    (inv : Investment) : SummaryStats :=
  let currentPrice := ((latestPrices inv.item_id).bind LatestPrice.high).getD 0
  let purchaseValue := inv.purchase_price * inv.quantity
  let currentValue := currentPrice * inv.quantity
  { s with
    totalValue := s.totalValue + currentValue
    unrealisedProfit := s.unrealisedProfit + (currentValue - purchaseValue) }

/-- The body of the `closedPositions.forEach` of lines 177–184, guarded by
`inv.sell_price !== null`; a null `tax_paid` counts as 0. -/
def closedStep (s : SummaryStats) (inv : Investment) : SummaryStats :=
  match inv.sell_price with
  | some sp =>
      let purchaseValue := inv.purchase_price * inv.quantity
      let sellValue := sp * inv.quantity
      { s with
        realisedProfit := s.realisedProfit + (sellValue - purchaseValue)
        totalTaxPaid := s.totalTaxPaid + inv.tax_paid.getD 0 }
  | none => s

/-- The `summaryStats` memo of PortfolioPage.tsx lines 163–187. -/
def summaryStats (openP closedP : List Investment)
    (latestPrices : ℕ → Option LatestPrice) : SummaryStats :=
  closedP.foldl closedStep (openP.foldl (openStep latestPrices) ⟨0, 0, 0, 0⟩)

/-- The partition and the summary fold composed, as the component computes
them from the raw investment list. -/
def portfolioSummary (investments : List Investment)
    (latestPrices : ℕ → Option LatestPrice) : SummaryStats :=
  summaryStats (openPositions investments) (closedPositions investments) latestPrices

/-! ### Portfolio history builder (src/components/PortfolioPage.tsx lines 42–123) -/

def msPerDay : ℤ := 86400000

/-- `setHours(0,0,0,0)`: the timestamp floored to the start of its day. -/
def midnight (t : ℤ) : ℤ :=
  msPerDay * Int.fdiv t msPerDay

/-- Insertion into a list ascending by timestamp. -/
def insertByTs (x : ℤ × ℤ) : List (ℤ × ℤ) → List (ℤ × ℤ)
  | [] => [x]
  | y :: ys => if x.1 ≤ y.1 then x :: y :: ys else y :: insertByTs x ys

/-- `sort((a,b) => a.timestamp - b.timestamp)`: ascending by timestamp. -/
def sortByTs (l : List (ℤ × ℤ)) : List (ℤ × ℤ) :=
  l.foldr insertByTs []

/-- Lines 63–66: keep the buckets whose `avgHighPrice` is non-null as
`(timestamp, price)` pairs and sort them ascending by timestamp. -/
def cleanSeries (raw : List TimeseriesData) : List (ℤ × ℤ) :=
  sortByTs (raw.filterMap (fun d => d.avgHighPrice.map (fun price => (d.timestamp, price))))

/-- The `priceDataMap` of lines 59–68: only a fulfilled fetch of an item that
was asked for (an open position's item) yields a series; a rejected fetch
(`none` from `fetch`) yields nothing for its item. -/
def historyPriceMap (openP : List Investment)
    (fetch : ℕ → Option (List TimeseriesData)) (itemId : ℕ) :
    Option (List (ℤ × ℤ)) :=
  if itemId ∈ openP.map (fun inv => inv.item_id) then (fetch itemId).map cleanSeries
  else none

/-- Lines 102–110: the price used for one item on one day — the latest
cleaned price point at or before the day, with the position's own purchase
price as the fallback when the series is missing, empty, or has no point
that early.  Series timestamps are epoch seconds, days epoch milliseconds,
hence the `* 1000`. -/
def priceOnDate (hist : Option (List (ℤ × ℤ))) (purchasePrice dateTs : ℤ) : ℤ :=
  match hist with
  | some l =>
      if 0 < l.length then
        match l.reverse.find? (fun p => p.1 * 1000 ≤ dateTs) with
        | some p => p.2
        | none => purchasePrice
      else purchasePrice
  | none => purchasePrice

/-- Lines 97–112: one open position's contribution to one day's total —
zero before its (midnight-normalised) purchase date, else quantity times
`priceOnDate`. -/
def contribution (priceMap : ℕ → Option (List (ℤ × ℤ))) (dateTs : ℤ)
    (inv : Investment) : ℤ :=
  if midnight inv.purchase_date ≤ dateTs then
    inv.quantity * priceOnDate (priceMap inv.item_id) inv.purchase_price dateTs
  else 0

/-- The `dailyValue` accumulation of lines 95–113. -/
def dailyValue (openP : List Investment) (priceMap : ℕ → Option (List (ℤ × ℤ)))
    (dateTs : ℤ) : ℤ :=
  openP.foldl (fun acc inv => acc + contribution priceMap dateTs inv) 0

/-- The `dateArray` loop of lines 88–91: one timestamp per day from the
(already midnight-normalised) start up to and including the last day whose
start is at or before `endTs`. -/
def dateList (startTs endTs : ℤ) : List ℤ :=
  if startTs ≤ endTs then
    (List.range ((endTs - startTs).toNat / 86400000 + 1)).map
      (fun (k : ℕ) => startTs + msPerDay * (k : ℤ))
  else []

/-- The `calculateHistory` effect of PortfolioPage.tsx lines 42–123.
`startRaw` stands for the `getStartDate()` result (it is normalised to
midnight before the day loop), `endTs` for `new Date()`, and `fetch` for the
`Promise.allSettled` outcome per item: `none` is a rejected fetch. -/
def calculateHistory (investments : List Investment)
    (fetch : ℕ → Option (List TimeseriesData)) (startRaw endTs : ℤ) :
    List (ℤ × ℤ) :=
  let openP := investments.filter (fun inv => inv.sell_price.isNone)
  if openP.length = 0 then []
  else
    (dateList (midnight startRaw) endTs).map
      (fun d => (d, dailyValue openP (historyPriceMap openP fetch) d))

/-- A concrete open position used to instantiate the history builder. -/
def invExample : Investment :=
  { id := "inv-1", user_id := "user-1", item_id := 4151, quantity := 5,
    purchase_price := 7, purchase_date := 0, sell_price := none,
    sell_date := none, tax_paid := none }

/-! ### Helper lemmas -/

theorem expandChar_append (c : Char) (r a b : List Char) :
    expandChar c r (a ++ b) = expandChar c r a ++ expandChar c r b := by
  induction a with
  | nil => rfl
  | cons x xs ih => simp [expandChar, ih, List.append_assoc]

theorem expand_two_passes (l : List Char) :
    expandChar '\'' ("%27".data) (expandChar '+' ("%2B".data) l)
      = encodeSpecialChars l := by
  induction l with
  | nil => rfl
  | cons c cs ih =>
    by_cases h1 : c = '+'
    · subst h1
      rw [expandChar, if_pos rfl, expandChar_append, ih]
      have h27 : expandChar '\'' ("%27".data) ("%2B".data) = "%2B".data := by decide
      rw [h27, encodeSpecialChars, if_pos rfl]
    · by_cases h2 : c = '\''
      · subst h2
        rw [expandChar, if_neg h1, expandChar_append, ih]
        have h27 : expandChar '\'' ("%27".data) ['\''] = "%27".data := by decide
        rw [h27, encodeSpecialChars, if_neg h1, if_pos rfl]
      · rw [expandChar, if_neg h1, expandChar_append, ih]
        have hc : expandChar '\'' ("%27".data) [c] = [c] := by
          simp [expandChar, h2]
        rw [hc, encodeSpecialChars, if_neg h1, if_neg h2]

theorem listStartsWith_nil (s : List Char) : listStartsWith s [] = true := by
  cases s <;> rfl

theorem listStartsWith_append (p q r : List Char) (h : listStartsWith p q = true) :
    listStartsWith (p ++ r) q = true := by
  induction q generalizing p with
  | nil => exact listStartsWith_nil _
  | cons y ys ih =>
    cases p with
    | nil => simp [listStartsWith] at h
    | cons x xs =>
      simp only [listStartsWith, Bool.and_eq_true, beq_iff_eq] at h
      simp only [List.cons_append, listStartsWith, Bool.and_eq_true, beq_iff_eq]
      exact ⟨h.1, ih xs h.2⟩

theorem createIconDataUrl_cases (s : String) :
    createIconDataUrl s = ""
      ∨ listStartsWith (createIconDataUrl s).data ("data:image/".data) = true := by
  unfold createIconDataUrl
  by_cases h0 : s = ""
  · left; rw [if_pos h0]
  · rw [if_neg h0]
    by_cases h1 : listStartsWith s.data ("data:image/".data) = true
    · right; rw [if_pos h1]; exact h1
    · right; rw [if_neg h1]
      exact listStartsWith_append _ _ _ (by decide)

/-! ### C9: the high-resolution image URL resolver -/

/-- C9. `getHighResImageUrl` maps the empty string to the empty string;
every other name is embedded in the fixed wiki URL template after replacing
every space by an underscore, uppercasing only the first character, and
percent-encoding every `+` as `%2B` and every apostrophe as `%27`; the two
quoted examples come out as the spec states. -/
theorem getHighResImageUrl_spec :
    getHighResImageUrl "" = ""
    ∧ (∀ s : String, s ≠ "" →
        getHighResImageUrl s
          = String.mk ("https://oldschool.runescape.wiki/images/".data
              ++ specFileName s ++ ".png".data))
    ∧ getHighResImageUrl "Saradomin's tear"
        = "https://oldschool.runescape.wiki/images/Saradomin%27s_tear.png"
    ∧ List.isSuffixOf ("Saradomin%27s_tear.png".data)
        (getHighResImageUrl "Saradomin's tear").data = true
    ∧ getHighResImageUrl "Amethyst arrow(p++)"
        = "https://oldschool.runescape.wiki/images/Amethyst_arrow(p%2B%2B).png" := by
  refine ⟨by decide, ?_, by decide, by decide, by decide⟩
  intro s hs
  rw [getHighResImageUrl, if_neg hs, expand_two_passes]
  rfl

/-! ### C10: idempotence of the icon data-URL constructor -/

/-- C10. `createIconDataUrl` is idempotent: its output is always either the
empty string or a string starting with `data:image/`, and both are returned
unchanged when fed back in. -/
theorem createIconDataUrl_idempotent :
    (∀ s : String, createIconDataUrl (createIconDataUrl s) = createIconDataUrl s)
    ∧ (∀ s : String, createIconDataUrl s = ""
        ∨ listStartsWith (createIconDataUrl s).data ("data:image/".data) = true) := by
  refine ⟨?_, createIconDataUrl_cases⟩
  intro s
  rcases createIconDataUrl_cases s with h | h
  · rw [h]; decide
  · have hne : createIconDataUrl s ≠ "" := by
      intro he
      rw [he] at h
      exact absurd h (by decide)
    conv_lhs => rw [createIconDataUrl]
    rw [if_neg hne, if_pos h]

/-! ### Parser helper lemmas -/

theorem dropWhile_head_false {p : Char → Bool} :
    ∀ {l : List Char} {c : Char} {cs : List Char},
      l.dropWhile p = c :: cs → p c = false := by
  intro l
  induction l with
  | nil => intro c cs h; simp [List.dropWhile] at h
  | cons a as ih =>
    intro c cs h
    rw [List.dropWhile_cons] at h
    by_cases hpa : p a = true
    · rw [if_pos hpa] at h
      exact ih h
    · rw [if_neg hpa] at h
      injection h with h1 _
      subst h1
      exact Bool.not_eq_true _ |>.mp hpa

theorem dropWhile_eq_nil_of_trimChars (l : List Char) (h : trimChars l = []) :
    l.dropWhile jsWhitespace = [] := by
  unfold trimChars at h
  rw [List.reverse_eq_nil_iff] at h
  cases hx : l.dropWhile jsWhitespace with
  | nil => rfl
  | cons c cs =>
    exfalso
    rw [hx, List.dropWhile_eq_nil_iff] at h
    have hc : jsWhitespace c = true := h c (by simp)
    rw [dropWhile_head_false hx] at hc
    exact Bool.false_ne_true hc

theorem parseFloatParts_of_trimChars_nil (l : List Char) (h : trimChars l = []) :
    parseFloatParts l = none := by
  have hd := dropWhile_eq_nil_of_trimChars l h
  simp [parseFloatParts, parseFloatRaw, hd]

theorem parseFloatParts_denom_pos (l : List Char) (n : ℤ) (d : ℕ)
    (h : parseFloatParts l = some (n, d)) : 0 < d := by
  unfold parseFloatParts at h
  cases hr : parseFloatRaw l with
  | none => rw [hr] at h; exact absurd h (by simp)
  | some r =>
    rw [hr, Option.map_some'] at h
    rw [Option.some_inj] at h
    split at h
    · rw [Prod.mk.injEq] at h
      rw [← h.2]
      positivity
    · rw [Prod.mk.injEq] at h
      rw [← h.2]
      positivity

/-! ### C6: shorthand price parser values and NaN conditions -/

/-- C6. `parseShorthandPrice` maps the quoted examples as stated (commas
removed, case-insensitive trailing `k`/`m` multiplying by 1 000 / 1 000 000),
and yields the NaN sentinel exactly when the input is empty, the numeric
portion left after removing commas and the suffix is empty, or that portion
does not parse as a floating-point number. -/
theorem parseShorthandPrice_spec :
    parseShorthandPrice "100k" = some 100000
    ∧ parseShorthandPrice "2.5m" = some 2500000
    ∧ parseShorthandPrice "1,234k" = some 1234000
    ∧ parseShorthandPrice "100K" = some 100000
    ∧ parseShorthandPrice "" = none
    ∧ parseShorthandPrice "abc" = none
    ∧ (∀ value : String,
        parseShorthandPrice value = none ↔
          value = "" ∨ numPartOf value = [] ∨ parseFloatQ (numPartOf value) = none) := by
  refine ⟨by decide, by decide, by decide, by decide, by decide, by decide, ?_⟩
  intro value
  unfold parseShorthandPrice
  by_cases h0 : value = ""
  · simp [h0]
  · rw [if_neg h0]
    by_cases h1 : trimChars (numPartOf value) = []
    · rw [if_pos h1]
      have hp : parseFloatParts (numPartOf value) = none :=
        parseFloatParts_of_trimChars_nil _ h1
      simp [h0, parseFloatQ, hp]
    · rw [if_neg h1]
      cases hp : parseFloatParts (numPartOf value) with
      | none => simp [h0, parseFloatQ, hp]
      | some p =>
        have hnum : numPartOf value ≠ [] := by
          intro he
          rw [he] at h1
          exact h1 rfl
        simp [h0, hnum, parseFloatQ, hp]

/-! ### C7: the floor applied after the multiplier -/

/-- C7 (amended). Whenever the numeric portion parses to the value `v` and
the multiplier resolves to `multiplierOf value`, `parseShorthandPrice`
returns `⌊v * multiplierOf value⌋` — the floor toward negative infinity
(`Math.floor`), not truncation toward zero; negative inputs are not
rejected and pass through this arithmetic. -/
theorem parseShorthandPrice_floor (value : String) (v : ℚ)
    (h0 : value ≠ "") (hv : parseFloatQ (numPartOf value) = some v) :
    parseShorthandPrice value = some ⌊v * multiplierOf value⌋ := by
  obtain ⟨⟨n, d⟩, hp, hval⟩ :
      ∃ p : ℤ × ℕ, parseFloatParts (numPartOf value) = some p
        ∧ ((p.1 : ℚ) / (p.2 : ℚ)) = v := by
    unfold parseFloatQ at hv
    cases hq : parseFloatParts (numPartOf value) with
    | none => rw [hq] at hv; exact absurd hv (by simp)
    | some p =>
      rw [hq] at hv
      exact ⟨p, rfl, by simpa using hv⟩
  have hdpos : 0 < d := parseFloatParts_denom_pos _ _ _ hp
  have htrim : trimChars (numPartOf value) ≠ [] := by
    intro h
    rw [parseFloatParts_of_trimChars_nil _ h] at hp
    exact absurd hp (by simp)
  unfold parseShorthandPrice
  rw [if_neg h0, if_neg htrim, hp]
  rw [← hval]
  have hrw : ((n : ℚ) / (d : ℚ)) * multiplierOf value
      = ((n * multiplierZ value : ℤ) : ℚ) / ((d : ℕ) : ℚ) := by
    unfold multiplierOf
    push_cast
    ring
  rw [hrw, Rat.floor_intCast_div_natCast]

/-- Witness for C7 at the concrete input `"-.5"`: the numeric portion parses
to `-5/10` and the result is the floor `-1`. -/
theorem parseShorthandPrice_floor_witness :
    parseShorthandPrice "-.5" = some ⌊(((-5 : ℤ) : ℚ) / ((10 : ℕ) : ℚ)) * multiplierOf "-.5"⌋ :=
  parseShorthandPrice_floor "-.5" _ (by decide)
    (by
      unfold parseFloatQ
      rw [show parseFloatParts (numPartOf "-.5") = some (-5, 10) from by decide]
      rfl)

/-- Counterexample to C7 as stated: at `"-.5"` the value times the
multiplier is `-1/2`, whose truncation toward zero is `0`, but the code
returns `Math.floor(-1/2) = -1`. -/
theorem parseShorthandPrice_not_truncated :
    parseShorthandPrice "-.5" = some (-1) ∧ parseShorthandPrice "-.5" ≠ some 0 := by
  refine ⟨by decide, by decide⟩

/-! ### C1: the Grand Exchange tax rules -/

/-- C1. `calculateGeTax` returns 0 for every exempt item name regardless of
price and quantity; 0 when the per-unit price is at most 50; and otherwise
the 2 % of the total sale value, floored, capped at 5 000 000. -/
theorem calculateGeTax_rules (itemName : String) (p q : ℤ) :
    (itemName ∈ TAX_EXEMPT_ITEMS → calculateGeTax itemName p q = 0)
    ∧ (itemName ∉ TAX_EXEMPT_ITEMS → p ≤ 50 → calculateGeTax itemName p q = 0)
    ∧ (itemName ∉ TAX_EXEMPT_ITEMS → 50 < p →
        calculateGeTax itemName p q = min ⌊((p * q : ℤ) : ℚ) * (2 / 100)⌋ 5000000) := by
  refine ⟨?_, ?_, ?_⟩
  · intro h
    rw [calculateGeTax, if_pos h]
  · intro h hle
    rw [calculateGeTax, if_neg h, if_pos (show p ≤ MIN_PRICE_FOR_TAX from hle)]
  · intro h hgt
    have hnle : ¬ p ≤ MIN_PRICE_FOR_TAX := by
      unfold MIN_PRICE_FOR_TAX
      omega
    rw [calculateGeTax, if_neg h, if_neg hnle]
    have hfloor : ⌊((p * q : ℤ) : ℚ) * (2 / 100)⌋ = p * q * 2 / 100 := by
      have hcast : ((p * q : ℤ) : ℚ) * (2 / 100)
          = ((p * q * 2 : ℤ) : ℚ) / ((100 : ℕ) : ℚ) := by
        push_cast
        ring
      rw [hcast, Rat.floor_intCast_div_natCast]
      norm_num
    rw [hfloor]
    rfl

/-! ### C8: the tax is never negative — only for non-negative quantities -/

/-- C8 (amended). For every item name and unit price, and every quantity
that is at least 0, `calculateGeTax` returns a non-negative value.  (For a
negative quantity the unvalidated arithmetic produces a negative tax, so the
claim is restricted to non-negative quantities.) -/
theorem calculateGeTax_nonneg (itemName : String) (p q : ℤ) (hq : 0 ≤ q) :
    0 ≤ calculateGeTax itemName p q := by
  unfold calculateGeTax
  by_cases h : itemName ∈ TAX_EXEMPT_ITEMS
  · rw [if_pos h]
  · rw [if_neg h]
    by_cases hle : p ≤ MIN_PRICE_FOR_TAX
    · rw [if_pos hle]
    · rw [if_neg hle]
      have hp : 0 < p := by
        unfold MIN_PRICE_FOR_TAX at hle
        omega
      apply le_min
      · apply Int.ediv_nonneg
        · positivity
        · norm_num
      · unfold MAX_TAX_AMOUNT
        norm_num

/-- Witness for C8 at a concrete non-exempt item with positive quantity. -/
theorem calculateGeTax_nonneg_witness : 0 ≤ calculateGeTax "Abyssal whip" 200 3 :=
  calculateGeTax_nonneg "Abyssal whip" 200 3 (by norm_num)

/-- Counterexample to C8 as stated: a negative quantity is not validated and
yields a negative tax (`floor(-100 * 0.02) = -2`). -/
theorem calculateGeTax_negative_tax : calculateGeTax "Rune platebody" 100 (-1) < 0 := by
  decide

/-! ### Partition and valuation helper lemmas -/

theorem length_filter_add_length_filter_not {α : Type} (p : α → Bool) (l : List α) :
    (l.filter p).length + (l.filter (fun x => !p x)).length = l.length := by
  induction l with
  | nil => rfl
  | cons a l ih =>
    by_cases h : p a = true <;>
      simp [List.filter_cons, h, ih] <;> omega

theorem partition_go (invs : List Investment) :
    ∀ a b : List Investment,
      invs.foldl partitionStep (a, b)
        = (a ++ invs.filter (fun inv => inv.sell_price.isNone),
           b ++ invs.filter (fun inv => !inv.sell_price.isNone)) := by
  induction invs with
  | nil => intro a b; simp
  | cons inv rest ih =>
    intro a b
    rw [List.foldl_cons]
    by_cases h : inv.sell_price = none
    · have hb : inv.sell_price.isNone = true := by simp [h]
      rw [show partitionStep (a, b) inv = (a ++ [inv], b) from by
            rw [partitionStep, if_pos h]]
      rw [ih]
      simp [List.filter_cons, hb]
    · rw [show partitionStep (a, b) inv = (a, b ++ [inv]) from by
            rw [partitionStep, if_neg h]]
      rw [ih]
      rcases hx : inv.sell_price with _ | sp
      · exact absurd hx h
      · simp [List.filter_cons, hx]

theorem openPositions_eq_filter (invs : List Investment) :
    openPositions invs = invs.filter (fun inv => inv.sell_price.isNone) := by
  unfold openPositions partitionPositions
  rw [partition_go invs [] []]
  simp

theorem closedPositions_eq_filter (invs : List Investment) :
    closedPositions invs = invs.filter (fun inv => !inv.sell_price.isNone) := by
  unfold closedPositions partitionPositions
  rw [partition_go invs [] []]
  simp

/-! ### C2: the open/closed partition is total and disjoint -/

/-- C2. The partition into open and closed positions is total and disjoint:
a record lands in the open bucket exactly when it is in the input with a
null `sell_price`, in the closed bucket exactly when it is in the input with
a non-null `sell_price`, never in both, and the bucket lengths add up to the
input length. -/
theorem partition_total_disjoint (invs : List Investment) :
    openPositions invs = invs.filter (fun inv => inv.sell_price.isNone)
    ∧ closedPositions invs = invs.filter (fun inv => !inv.sell_price.isNone)
    ∧ (∀ inv : Investment,
        (inv ∈ openPositions invs ↔ inv ∈ invs ∧ inv.sell_price = none)
        ∧ (inv ∈ closedPositions invs ↔ inv ∈ invs ∧ inv.sell_price ≠ none)
        ∧ ¬(inv ∈ openPositions invs ∧ inv ∈ closedPositions invs))
    ∧ (openPositions invs).length + (closedPositions invs).length = invs.length := by
  refine ⟨openPositions_eq_filter invs, closedPositions_eq_filter invs, ?_, ?_⟩
  · intro inv
    rw [openPositions_eq_filter, closedPositions_eq_filter]
    constructor
    · rw [List.mem_filter]
      simp [Option.isNone_iff_eq_none]
    constructor
    · rw [List.mem_filter]
      simp [Option.isNone_iff_eq_none, Option.isSome_iff_ne_none]
    · rw [List.mem_filter, List.mem_filter]
      intro hmem
      have h1 := hmem.1.2
      have h2 := hmem.2.2
      rw [h1] at h2
      simp at h2
  · rw [openPositions_eq_filter, closedPositions_eq_filter]
    exact length_filter_add_length_filter_not _ invs

/-! ### Valuation fold lemmas -/

/-- The realised profit one record of the closed fold adds
(`sellValue − purchaseValue`, and 0 under the `sell_price !== null` guard). -/
def realisedOf (inv : Investment) : ℤ :=
  match inv.sell_price with
  | some sp => sp * inv.quantity - inv.purchase_price * inv.quantity
  | none => 0

/-- The tax one record of the closed fold adds (null `tax_paid` counts 0). -/
def taxOf (inv : Investment) : ℤ :=
  match inv.sell_price with
  | some _ => inv.tax_paid.getD 0
  | none => 0

theorem openStep_eq (latest : ℕ → Option LatestPrice) (s : SummaryStats)
    (inv : Investment) :
    openStep latest s inv
      = ⟨s.totalValue + positionCurrentValue latest inv,
         s.unrealisedProfit + positionUnrealisedPL latest inv,
         s.realisedProfit, s.totalTaxPaid⟩ := rfl

theorem closedStep_eq (s : SummaryStats) (inv : Investment) :
    closedStep s inv
      = ⟨s.totalValue, s.unrealisedProfit,
         s.realisedProfit + realisedOf inv,
         s.totalTaxPaid + taxOf inv⟩ := by
  cases s
  cases hsp : inv.sell_price with
  | none => simp [closedStep, realisedOf, taxOf, hsp]
  | some sp => simp [closedStep, realisedOf, taxOf, hsp]

theorem openFold (latest : ℕ → Option LatestPrice) :
    ∀ (openP : List Investment) (s : SummaryStats),
      openP.foldl (openStep latest) s
        = ⟨s.totalValue + (openP.map (positionCurrentValue latest)).sum,
           s.unrealisedProfit + (openP.map (positionUnrealisedPL latest)).sum,
           s.realisedProfit, s.totalTaxPaid⟩ := by
  intro openP
  induction openP with
  | nil => intro s; cases s; simp
  | cons inv rest ih =>
    intro s
    rw [List.foldl_cons, openStep_eq, ih]
    rw [List.map_cons, List.sum_cons, List.map_cons, List.sum_cons]
    congr 1 <;> dsimp only <;> ring

theorem closedFold :
    ∀ (closedP : List Investment) (s : SummaryStats),
      closedP.foldl closedStep s
        = ⟨s.totalValue, s.unrealisedProfit,
           s.realisedProfit + (closedP.map realisedOf).sum,
           s.totalTaxPaid + (closedP.map taxOf).sum⟩ := by
  intro closedP
  induction closedP with
  | nil => intro s; cases s; simp
  | cons inv rest ih =>
    intro s
    rw [List.foldl_cons, closedStep_eq, ih]
    rw [List.map_cons, List.sum_cons, List.map_cons, List.sum_cons]
    congr 1 <;> dsimp only <;> ring

/-! ### C3: open positions are marked to the latest high price -/

/-- C3. Per open position, the current value is the latest high price (0
when the item is missing from the lookup or its high price is null) times
the quantity, and the unrealised P/L is that value minus the purchase
value; the engine's totals are the sums of these per-position figures over
the open bucket. -/
theorem valuation_open_positions (invs : List Investment)
    (latest : ℕ → Option LatestPrice) :
    (portfolioSummary invs latest).totalValue
        = ((openPositions invs).map (positionCurrentValue latest)).sum
    ∧ (portfolioSummary invs latest).unrealisedProfit
        = ((openPositions invs).map (positionUnrealisedPL latest)).sum
    ∧ (∀ inv : Investment,
        positionCurrentValue latest inv = currentHighPrice latest inv.item_id * inv.quantity
        ∧ positionUnrealisedPL latest inv
            = positionCurrentValue latest inv - inv.purchase_price * inv.quantity)
    ∧ (∀ inv : Investment, (latest inv.item_id).bind LatestPrice.high = none →
        positionCurrentValue latest inv = 0
        ∧ positionUnrealisedPL latest inv = -(inv.purchase_price * inv.quantity)) := by
  refine ⟨?_, ?_, fun inv => ⟨rfl, rfl⟩, ?_⟩
  · unfold portfolioSummary summaryStats
    rw [openFold, closedFold]
    simp
  · unfold portfolioSummary summaryStats
    rw [openFold, closedFold]
    simp
  · intro inv h
    unfold positionUnrealisedPL positionCurrentValue currentHighPrice
    rw [h]
    simp

/-! ### C4: realised profit and tax are summed over closed positions only -/

/-- C4. Per closed position the realised P/L is
`(sell_price − purchase_price) × quantity` with `tax_paid` not subtracted;
the engine's totals sum these figures and the `tax_paid` values (null as 0)
over the closed bucket only — every record of that bucket has a non-null
`sell_price`, and a fold with no closed records realises nothing. -/
theorem valuation_closed_positions (invs : List Investment)
    (latest : ℕ → Option LatestPrice) :
    (portfolioSummary invs latest).realisedProfit
        = ((closedPositions invs).map
            (fun inv => (inv.sell_price.getD 0 - inv.purchase_price) * inv.quantity)).sum
    ∧ (portfolioSummary invs latest).totalTaxPaid
        = ((closedPositions invs).map (fun inv => inv.tax_paid.getD 0)).sum
    ∧ (∀ inv ∈ closedPositions invs, inv.sell_price ≠ none)
    ∧ (∀ openOnly : List Investment,
        (summaryStats openOnly [] latest).realisedProfit = 0
        ∧ (summaryStats openOnly [] latest).totalTaxPaid = 0) := by
  have hclosed : ∀ inv ∈ closedPositions invs, inv.sell_price ≠ none := by
    intro inv hmem
    rw [closedPositions_eq_filter, List.mem_filter] at hmem
    intro hn
    rw [hn] at hmem
    simpa using hmem.2
  refine ⟨?_, ?_, hclosed, ?_⟩
  · unfold portfolioSummary summaryStats
    rw [openFold, closedFold]
    simp only [zero_add]
    refine congrArg List.sum (List.map_congr_left ?_)
    intro inv hmem
    rcases hsp : inv.sell_price with _ | sp
    · exact absurd hsp (hclosed inv hmem)
    · simp only [realisedOf, hsp, Option.getD_some]
      ring
  · unfold portfolioSummary summaryStats
    rw [openFold, closedFold]
    simp only [zero_add]
    refine congrArg List.sum (List.map_congr_left ?_)
    intro inv hmem
    rcases hsp : inv.sell_price with _ | sp
    · exact absurd hsp (hclosed inv hmem)
    · simp [taxOf, hsp]
  · intro openOnly
    unfold summaryStats
    rw [closedFold, openFold]
    simp

/-! ### History builder helper lemmas -/

theorem historyPriceMap_of_fetch_none (openP : List Investment)
    (fetch : ℕ → Option (List TimeseriesData)) (itemId : ℕ)
    (h : fetch itemId = none) :
    historyPriceMap openP fetch itemId = none := by
  unfold historyPriceMap
  rw [h]
  simp

theorem contribution_of_fetch_none (openP : List Investment)
    (fetch : ℕ → Option (List TimeseriesData)) (inv : Investment) (d : ℤ)
    (h : fetch inv.item_id = none) :
    contribution (historyPriceMap openP fetch) d inv
      = if midnight inv.purchase_date ≤ d then inv.quantity * inv.purchase_price
        else 0 := by
  unfold contribution
  rw [historyPriceMap_of_fetch_none openP fetch inv.item_id h]
  rfl

theorem mem_dateList_ge_start {startTs endTs d : ℤ} (h : d ∈ dateList startTs endTs) :
    startTs ≤ d := by
  unfold dateList at h
  split at h
  · rw [List.mem_map] at h
    obtain ⟨k, _, rfl⟩ := h
    have hk : (0 : ℤ) ≤ msPerDay * (k : ℤ) :=
      mul_nonneg (by norm_num [msPerDay]) (Int.natCast_nonneg k)
    omega
  · simp at h

theorem dateList_length_of_le {startTs endTs : ℤ} (h : startTs ≤ endTs) :
    (dateList startTs endTs).length = (endTs - startTs).toNat / 86400000 + 1 := by
  unfold dateList
  rw [if_pos h, List.length_map, List.length_range]

/-! ### C5: the history builder degrades gracefully on a failed fetch -/

/-- C5. When the price-series fetch for an open position's item fails, the
history builder still emits one entry per calendar day of the window (it
never aborts): for a single open position purchased on day `D` with the
window starting at `D`, every emitted day is at or after `D` and carries the
value `quantity * purchase_price`; and in any portfolio a failed-fetch item
contributes `quantity * purchase_price` on each day at or after its
midnight-normalised purchase date and nothing before. -/
theorem history_survives_failed_fetch (inv : Investment)
    (fetch : ℕ → Option (List TimeseriesData)) (endTs : ℤ)
    (hopen : inv.sell_price = none)
    (hfail : fetch inv.item_id = none)
    (hend : midnight inv.purchase_date ≤ endTs) :
    calculateHistory [inv] fetch inv.purchase_date endTs
      = (dateList (midnight inv.purchase_date) endTs).map
          (fun d => (d, inv.quantity * inv.purchase_price))
    ∧ (calculateHistory [inv] fetch inv.purchase_date endTs).length
        = (endTs - midnight inv.purchase_date).toNat / 86400000 + 1
    ∧ (∀ p ∈ calculateHistory [inv] fetch inv.purchase_date endTs,
        midnight inv.purchase_date ≤ p.1 ∧ p.2 = inv.quantity * inv.purchase_price)
    ∧ (∀ (openP : List Investment) (d : ℤ),
        contribution (historyPriceMap openP fetch) d inv
          = if midnight inv.purchase_date ≤ d then inv.quantity * inv.purchase_price
            else 0)
    ∧ (∀ (invs : List Investment) (startRaw : ℤ),
        invs.filter (fun i => i.sell_price.isNone) ≠ [] →
        (calculateHistory invs fetch startRaw endTs).map Prod.fst
          = dateList (midnight startRaw) endTs) := by
  have hfilter : [inv].filter (fun i => i.sell_price.isNone) = [inv] := by
    simp [List.filter_cons, hopen]
  have hmain :
      calculateHistory [inv] fetch inv.purchase_date endTs
        = (dateList (midnight inv.purchase_date) endTs).map
            (fun d => (d, inv.quantity * inv.purchase_price)) := by
    unfold calculateHistory
    rw [hfilter]
    rw [if_neg (by simp)]
    apply List.map_congr_left
    intro d hd
    have hge : midnight inv.purchase_date ≤ d := mem_dateList_ge_start hd
    unfold dailyValue
    rw [List.foldl_cons, List.foldl_nil,
      contribution_of_fetch_none [inv] fetch inv d hfail, if_pos hge, zero_add]
  refine ⟨hmain, ?_, ?_, ?_, ?_⟩
  · rw [hmain, List.length_map, dateList_length_of_le hend]
  · intro p hp
    rw [hmain, List.mem_map] at hp
    obtain ⟨d, hd, rfl⟩ := hp
    exact ⟨mem_dateList_ge_start hd, rfl⟩
  · intro openP d
    exact contribution_of_fetch_none openP fetch inv d hfail
  · intro invs startRaw hne
    unfold calculateHistory
    rw [if_neg (by simpa [List.length_eq_zero] using hne)]
    rw [List.map_map]
    exact List.map_id _

/-- Witness for C5: one open position bought at the epoch, a fetch that
fails for every item, and a two-day window — three days of `5 * 7`. -/
theorem history_survives_failed_fetch_witness :
    calculateHistory [invExample] (fun _ => none) invExample.purchase_date 172800000
      = [(0, 35), (86400000, 35), (172800000, 35)] := by
  have h := history_survives_failed_fetch invExample (fun _ => none) 172800000
    rfl rfl (by decide)
  rw [h.1]
  decide

end GEPulse
